import Mathlib

/-!
Verification of the freeotp-export pipeline (src/freeotp-export.py).

The Python source is shallowly embedded below:
* pure helpers (`secret_to_b32`, `query_data`, the per-token URI
  construction inside `generate_images`, the page-layout loop of
  `write_to_pdf_file`, the caption sort in `main`) become Lean functions;
* external library calls (zlib decompression, tarfile parsing, the XML
  parser and `json.loads`) become oracle parameters, since their code is
  not part of this repository;
* Python exceptions that abort the run (zlib.error, tarfile.ReadError,
  json.JSONDecodeError, KeyError on a required token field, the
  UnboundLocalError on the post-loop `name` reference) become an explicit
  error type threaded through `Except`.

Bytes are modelled as `Nat` (values < 256 where it matters), signed
byte-like JSON integers as `Int`.
-/

/-! ### Base32 (RFC 4648), modelling Python `base64.b32encode` / `b32decode` -/

/-- The RFC 4648 base32 alphabet, as used by `base64.b32encode`. -/
def b32chars : List Char :=
  ['A', 'B', 'C', 'D', 'E', 'F', 'G', 'H', 'I', 'J', 'K', 'L', 'M',
   'N', 'O', 'P', 'Q', 'R', 'S', 'T', 'U', 'V', 'W', 'X', 'Y', 'Z',
   '2', '3', '4', '5', '6', '7']

/-- Character for a 5-bit group value. -/
def natToB32Char (v : Nat) : Char := b32chars.getD v 'A'

/-- Index of a character in the base32 alphabet (length 32 if absent). -/
def b32CharVal (c : Char) : Nat := b32chars.indexOf c

/-- The eight bits of a byte, most significant first, each bit a `Nat` in {0,1}. -/
def byteBits (b : Nat) : List Nat :=
  [b / 128 % 2, b / 64 % 2, b / 32 % 2, b / 16 % 2,
   b / 8 % 2, b / 4 % 2, b / 2 % 2, b % 2]

/-- Value of a big-endian bit list. -/
def bitsVal (l : List Nat) : Nat := l.foldl (fun a bit => 2 * a + bit) 0

/-- The five bits encoded by a base32 character, most significant first. -/
def charBits (c : Char) : List Nat :=
  [b32CharVal c / 16 % 2, b32CharVal c / 8 % 2, b32CharVal c / 4 % 2,
   b32CharVal c / 2 % 2, b32CharVal c % 2]

/-- Split a bit list into chunks of five (last chunk may be short). -/
def chunks5 : List Nat → List (List Nat)
  | a :: b :: c :: d :: e :: rest => [a, b, c, d, e] :: chunks5 rest
  | [] => []
  | [a] => [[a]]
  | [a, b] => [[a, b]]
  | [a, b, c] => [[a, b, c]]
  | [a, b, c, d] => [[a, b, c, d]]

/-- Split a bit list into chunks of eight (last chunk may be short). -/
def chunks8 : List Nat → List (List Nat)
  | a :: b :: c :: d :: e :: f :: g :: h :: rest =>
      [a, b, c, d, e, f, g, h] :: chunks8 rest
  | [] => []
  | [a] => [[a]]
  | [a, b] => [[a, b]]
  | [a, b, c] => [[a, b, c]]
  | [a, b, c, d] => [[a, b, c, d]]
  | [a, b, c, d, e] => [[a, b, c, d, e]]
  | [a, b, c, d, e, f] => [[a, b, c, d, e, f]]
  | [a, b, c, d, e, f, g] => [[a, b, c, d, e, f, g]]

/-- Zero-pad a bit list on the right to a multiple of five bits. -/
def padBits (bits : List Nat) : List Nat :=
  bits ++ List.replicate ((5 - bits.length % 5) % 5) 0

/-- `base64.b32encode` on a byte list: 5-bit groups of the zero-padded bit
stream mapped through the alphabet, then `=`-padded to a multiple of eight
characters. -/
def b32encodeChars (data : List Nat) : List Char :=
  let chars := (chunks5 (padBits ((data.map byteBits).flatten))).map
    (fun g => natToB32Char (bitsVal g))
  chars ++ List.replicate ((8 - chars.length % 8) % 8) '='

/-- Strip the trailing `=` padding characters. -/
def dropTrailingPad (l : List Char) : List Char :=
  (l.reverse.dropWhile (fun c => c == '=')).reverse

/-- `base64.b32decode` (success path): strip padding, turn each character
into five bits, keep the whole bytes of the bit stream. -/
def b32decodeChars (s : List Char) : List Nat :=
  let bits := ((dropTrailingPad s).map charBits).flatten
  (chunks8 (bits.take (8 * (bits.length / 8)))).map bitsVal

/-- `base64.b32decode` on a string. -/
def b32decode (s : String) : List Nat := b32decodeChars s.data

/-- `secret_to_b32` (src/freeotp-export.py:89-92): each JSON integer `x` is
normalized by `(x + 256) & 255` (for Python integers this equals
`(x + 256) % 256`), the bytes are base32-encoded and decoded to `str`. -/
def secret_to_b32 (secret : List Int) : String :=
  String.mk (b32encodeChars (secret.map (fun x => ((x + 256) % 256).toNat)))

/-! ### Percent-encoding, modelling Python `urllib.parse.quote` (default safe "/") -/

/-- Uppercase hexadecimal digit. -/
def hexDigit (n : Nat) : Char :=
  if n < 10 then Char.ofNat (48 + n) else Char.ofNat (55 + n)

/-- UTF-8 encoding of one character, as Python encodes a `str` before quoting. -/
def utf8Bytes (c : Char) : List Nat :=
  let v := c.toNat
  if v < 128 then [v]
  else if v < 2048 then [192 + v / 64, 128 + v % 64]
  else if v < 65536 then [224 + v / 4096, 128 + v / 64 % 64, 128 + v % 64]
  else [240 + v / 262144, 128 + v / 4096 % 64, 128 + v / 64 % 64, 128 + v % 64]

/-- Characters `urllib.parse.quote` never encodes: ASCII letters, digits
and `_.-~`. -/
def alwaysSafeChar (c : Char) : Bool :=
  (('A' ≤ c && c ≤ 'Z') || ('a' ≤ c && c ≤ 'z') || ('0' ≤ c && c ≤ '9')
    || c == '_' || c == '.' || c == '-' || c == '~')

/-- Encoding of one character under quoting with the default `safe="/"`. -/
def quoteChar (c : Char) : List Char :=
  if alwaysSafeChar c || c == '/' then [c]
  else (utf8Bytes c).flatMap (fun b => ['%', hexDigit (b / 16), hexDigit (b % 16)])

/-- `urllib.parse.quote` with its default `safe="/"` argument, as called in
`query_data` and for the URI label (src/freeotp-export.py:95-96, 130). -/
def quote (s : String) : String := String.mk (s.data.flatMap quoteChar)

/-- Python `"&".join`. -/
def join_amp : List String → String
  | [] => ""
  | [s] => s
  | s :: rest => s ++ "&" ++ join_amp rest

/-- `query_data` (src/freeotp-export.py:95-96): ampersand-join of
`quote(key)=quote(value)` over the parameter list in insertion order. -/
def query_data (p : List (String × String)) : String :=
  join_amp (p.map (fun d => quote d.1 ++ "=" ++ quote d.2))

/-- Python `str.lower()` on the token type (ASCII case mapping, which is
all `"TOTP"`/`"HOTP"` need). -/
def str_lower (s : String) : String := String.mk (s.data.map Char.toLower)

/-! ### Token records and the per-record URI encoder -/

/-- A parsed credential value: the JSON object stored under one non-reserved
`<string>` key of tokens.xml.  Every field the code reads is optional at this
level; `generate_images` raises `KeyError` when a required one is absent.
The JSON key "algo" carries what the spec calls the record's algorithm. -/
structure Token where
  type : Option String := none
  label : Option String := none
  secret : Option (List Int) := none
  algo : Option String := none
  digits : Option Int := none
  period : Option Int := none
  issuerInt : Option String := none
  issuerExt : Option String := none
  issuerAlt : Option String := none
  labelAlt : Option String := none
deriving DecidableEq, Repr

/-- The ways the pipeline aborts.  The Python script has no error classes of
its own: these constructors name the uncaught exceptions (and the spec's
names for them). -/
inductive PErr where
  /-- zlib.error from `zlib.decompress`, or tarfile.ReadError from
  `tarfile.open` (in particular on an empty decompressed stream). -/
  | corruptContainer
  /-- KeyError from `tf.extract(APK_PATH)`: entry missing from the archive. -/
  | entryNotFound
  /-- json.JSONDecodeError from `json.loads`, or KeyError on a required
  token field in `generate_images`. -/
  | malformedRecord
  /-- UnboundLocalError: `token_order.append(name)` after a loop that never
  ran (src/freeotp-export.py:82). -/
  | nameError
deriving DecidableEq, Repr

/-- Python truthiness of `token.get(key)`: false for an absent key (None)
and for an empty string. -/
def truthy (o : Option String) : Bool :=
  match o with
  | some s => !s.isEmpty
  | none => false

/-- `token[key]` on a required field: value, or KeyError. -/
def req {α : Type} (o : Option α) : Except PErr α :=
  match o with
  | some v => Except.ok v
  | none => Except.error PErr.malformedRecord

/-- The issuer if/elif chain of `generate_images`
(src/freeotp-export.py:110-119): first truthy of issuerInt, issuerExt,
issuerAlt, labelAlt, else `Unknown{i}`. -/
def resolve_issuer (token : Token) (i : Nat) : String :=
  if truthy token.issuerInt then token.issuerInt.getD ""
  else if truthy token.issuerExt then token.issuerExt.getD ""
  else if truthy token.issuerAlt then token.issuerAlt.getD ""
  else if truthy token.labelAlt then token.labelAlt.getD ""
  else "Unknown" ++ toString i

/-- The caption expression of src/freeotp-export.py:129:
`f'{token["issuerExt"]}:{token["label"]}' if token.get('issuerExt') else token['label']`. -/
def token_caption (token : Token) (lb : String) : String :=
  if truthy token.issuerExt then token.issuerExt.getD "" ++ ":" ++ lb else lb

/-- The per-token body of the `generate_images` loop
(src/freeotp-export.py:110-136) for the token at zero-based position `i`,
producing the (caption, enrollment URI) pair; the URI is what gets rendered
into the QR-code image `{i}.png`.  Required fields are read in the order the
Python expressions evaluate them. -/
def encode_token (token : Token) (i : Nat) : Except PErr (String × String) := do
  let issuer := resolve_issuer token i
  let sec ← req token.secret
  let b32_secret := secret_to_b32 sec
  let algov ← req token.algo
  let digitsv ← req token.digits
  let periodv ← req token.period
  let labelv ← req token.label
  let param := [("secret", b32_secret), ("issuer", issuer), ("algorithm", algov),
                ("digits", toString digitsv), ("period", toString periodv)]
  let lab := token_caption token labelv
  let ty ← req token.type
  Except.ok (lab, "otpauth://" ++ str_lower ty ++ "/" ++ quote lab ++ "?" ++ query_data param)

/-- The `generate_images` loop from counter value `i` onward. -/
def generate_images_go (i : Nat) : List Token → Except PErr (List (String × String))
  | [] => Except.ok []
  | t :: rest => do
      let p ← encode_token t i
      let l ← generate_images_go (i + 1) rest
      Except.ok (p :: l)

/-- `generate_images` (src/freeotp-export.py:99-138), abstracted from its
filesystem side effects: the list of (caption, URI) pairs, starting the
run-scoped counter `i` at 0. -/
def generate_images (tokens : List Token) : Except PErr (List (String × String)) :=
  generate_images_go 0 tokens

/-! ### Token decoding from the XML document -/

/-- The loop of `parse_tokens_from_xml` (src/freeotp-export.py:76-81) over
the `<string>` elements, given as (name attribute, text) pairs; `jsonParse`
is the `json.loads` oracle, returning `none` on invalid JSON. -/
def parse_strings (jsonParse : String → Option Token) :
    List (String × String) → Except PErr (List Token)
  | [] => Except.ok []
  | (name, text) :: rest =>
      if name = "tokenOrder" then parse_strings jsonParse rest
      else
        match jsonParse text with
        | none => Except.error PErr.malformedRecord
        | some t => Except.map (fun ts => t :: ts) (parse_strings jsonParse rest)

/-- `parse_tokens_from_xml` (src/freeotp-export.py:67-86): run the loop; the
post-loop `token_order.append(name)` raises UnboundLocalError when the
document had no `<string>` elements at all. -/
def parse_tokens_from_xml (jsonParse : String → Option Token)
    (entries : List (String × String)) : Except PErr (List Token) :=
  match entries with
  | [] => Except.error PErr.nameError
  | _ :: _ => parse_strings jsonParse entries

/-! ### Container unwrapping -/

/-- The fixed archive path `apps/org.fedorahosted.freeotp/sp/tokens.xml`. -/
def APK_PATH : String := "apps/org.fedorahosted.freeotp/sp/tokens.xml"

/-- `extract_tokens_file` (src/freeotp-export.py:48-64): skip 24 bytes,
decompress the rest (`decompress` is the zlib oracle, `none` on zlib.error),
open the result as a tar archive (`tarEntries` is the tarfile oracle giving
the entry list, `none` on tarfile.ReadError) and extract `APK_PATH`. -/
def extract_tokens_file (decompress : List Nat → Option (List Nat))
    (tarEntries : List Nat → Option (List (String × List Nat)))
    (container : List Nat) : Except PErr (List Nat) :=
  match decompress (container.drop 24) with
  | none => Except.error PErr.corruptContainer
  | some tarstream =>
      match tarEntries tarstream with
      | none => Except.error PErr.corruptContainer
      | some entries =>
          match entries.find? (fun e => e.1 == APK_PATH) with
          | none => Except.error PErr.entryNotFound
          | some e => Except.ok e.2

/-- The decode-and-encode tail of the pipeline (`main` with `--qrcodes`,
src/freeotp-export.py:216-217), from the XML (name, text) entries. -/
def decode_and_encode (jsonParse : String → Option Token)
    (entries : List (String × String)) : Except PErr (List (String × String)) := do
  let tokens ← parse_tokens_from_xml jsonParse entries
  generate_images tokens

/-- The full `--qrcodes` pipeline from raw container bytes; `xmlOf` is the
ElementTree oracle turning the extracted file into (name, text) pairs. -/
def run_pipeline (decompress : List Nat → Option (List Nat))
    (tarEntries : List Nat → Option (List (String × List Nat)))
    (xmlOf : List Nat → List (String × String))
    (jsonParse : String → Option Token)
    (container : List Nat) : Except PErr (List (String × String)) := do
  let fileBytes ← extract_tokens_file decompress tarEntries container
  decode_and_encode jsonParse (xmlOf fileBytes)

/-! ### Page layout -/

/-- `QRCODE_W` (src/freeotp-export.py:24). -/
def QRCODE_W : Nat := 35

/-- `QRCODE_H` (src/freeotp-export.py:25). -/
def QRCODE_H : Nat := 35

/-- One `add_image` call (src/freeotp-export.py:148-150): the QR image is
drawn at `(x, y)` sized `QRCODE_W × QRCODE_H` on the given page, with the
caption text just below it. -/
structure Placement where
  page : Nat
  x : Nat
  y : Nat
  image : String
  text : String
deriving DecidableEq, Repr, Inhabited

/-- The mutable state of the `write_to_pdf_file` loop: current page count
(`generate_doc` has already called `add_page` once), the cursor, and the
placements emitted so far. -/
structure LayoutState where
  page : Nat
  x : Nat
  y : Nat
  placements : List Placement
deriving DecidableEq, Repr

/-- One iteration of the `write_to_pdf_file` loop
(src/freeotp-export.py:156-166) on the entry `qc = (caption, image path)`. -/
def layout_step (s : LayoutState) (qc : String × String) : LayoutState :=
  let x1 := if s.x > 150 then 10 else s.x
  let y1 := if s.x > 150 then s.y + QRCODE_H + 13 else s.y
  if y1 > 250 then
    { page := s.page + 1, x := 10 + QRCODE_W + 60, y := 10,
      placements := s.placements ++
        [{ page := s.page + 1, x := 10, y := 10, image := qc.2, text := qc.1 }] }
  else
    { page := s.page, x := x1 + QRCODE_W + 60, y := y1,
      placements := s.placements ++
        [{ page := s.page, x := x1, y := y1, image := qc.2, text := qc.1 }] }

/-- `write_to_pdf_file` (src/freeotp-export.py:153-166), starting from the
cursor `(10, 10)` on page 1. -/
def write_to_pdf_file (l : List (String × String)) : LayoutState :=
  l.foldl layout_step { page := 1, x := 10, y := 10, placements := [] }

/-- Page of the k-th placement (zero-based): twelve entries per page. -/
def slot_page (k : Nat) : Nat := 1 + k / 12

/-- x-coordinate of the k-th placement: two columns, at 10 and 105. -/
def slot_x (k : Nat) : Nat := 10 + 95 * (k % 12 % 2)

/-- y-coordinate of the k-th placement: six rows, 48 apart from 10. -/
def slot_y (k : Nat) : Nat := 10 + 48 * (k % 12 / 2)

/-- The placement the loop emits for the k-th entry. -/
def placeAt (k : Nat) (qc : String × String) : Placement :=
  { page := slot_page k, x := slot_x k, y := slot_y k, image := qc.2, text := qc.1 }

/-- Placements for a list of entries starting at slot `n`. -/
def placed_from (n : Nat) : List (String × String) → List Placement
  | [] => []
  | qc :: rest => placeAt n qc :: placed_from (n + 1) rest

/-- The loop state after `n` entries, with placement list `pl`. -/
def mkState (n : Nat) (pl : List Placement) : LayoutState :=
  match n with
  | 0 => { page := 1, x := 10, y := 10, placements := pl }
  | m + 1 => { page := slot_page m, x := slot_x m + 95, y := slot_y m, placements := pl }

/-- Highest page number receiving a placement (0 when nothing is placed). -/
def pages_used (l : List (String × String)) : Nat :=
  ((write_to_pdf_file l).placements.map (fun p => p.page)).foldl max 0

/-- The `QRCODE_W × QRCODE_H` cells of two placements do not overlap. -/
def disjointCells (p q : Placement) : Prop :=
  p.x + QRCODE_W ≤ q.x ∨ q.x + QRCODE_W ≤ p.x ∨ p.y + QRCODE_H ≤ q.y ∨ q.y + QRCODE_H ≤ p.y

/-- The caption sort of `main` (src/freeotp-export.py:218):
`sorted(qrcode_list, key=lambda qc: qc[0])`, a stable sort on the caption. -/
def sort_qrcodes (l : List (String × String)) : List (String × String) :=
  l.mergeSort (fun a b => decide (a.1 ≤ b.1))

/-- `n` entries captioned "0", "1", … with image paths "0.png", "1.png", …
(the file names `generate_images` assigns). -/
def demo_entries (n : Nat) : List (String × String) :=
  (List.range n).map (fun i => (toString i, toString i ++ ".png"))

/-! ### Claim-shaped definitions and concrete test records -/

/-- Modelled from the spec claim C3: a caption that uses `issuerExt`
whenever the field is present, even when it is the empty string. -/
def c3_claim_caption (t : Token) (lb : String) : String :=
  if t.issuerExt.isSome then t.issuerExt.getD "" ++ ":" ++ lb else lb

/-- All four issuer fields are empty or absent, so `generate_images`
synthesizes `Unknown{i}`. -/
def issuer_synthetic (t : Token) : Bool :=
  !(truthy t.issuerInt || truthy t.issuerExt || truthy t.issuerAlt || truthy t.labelAlt)

/-- A required field of the record is absent (the fields `generate_images`
reads with `token[...]`; the spec calls the `algo` field `algorithm`). -/
def missing_required (t : Token) : Prop :=
  t.type = none ∨ t.secret = none ∨ t.label = none ∨ t.algo = none
    ∨ t.digits = none ∨ t.period = none

/-- A complete record whose `issuerExt` is present but empty. -/
def c3tok : Token :=
  { type := some "TOTP", label := some "x", secret := some [0], algo := some "SHA1",
    digits := some 6, period := some 30, issuerInt := some "Foo", issuerExt := some "" }

/-- A complete record with every issuer field absent. -/
def c5tok : Token :=
  { type := some "TOTP", label := some "y", secret := some [0], algo := some "SHA1",
    digits := some 6, period := some 30 }

/-- A complete record with `issuerInt` set. -/
def c2tok : Token :=
  { type := some "TOTP", label := some "z", secret := some [0], algo := some "SHA1",
    digits := some 6, period := some 30, issuerInt := some "Acme" }

/-- The (caption, URI) list `generate_images` yields on `[c2tok]`. -/
def c2res : List (String × String) :=
  (generate_images [c2tok]).toOption.getD []

/-- Modelled from the spec claim C2: the first present and non-empty
string among a priority list of optional fields. -/
def first_nonempty : List (Option String) → Option String
  | [] => none
  | o :: rest =>
      match o with
      | some s => if s.isEmpty then first_nonempty rest else some s
      | none => first_nonempty rest

/-- A complete record with `issuerExt = "Acme"`, for the C3 witness. -/
def c3full : Token :=
  { type := some "TOTP", label := some "me@x", secret := some [1, -1], algo := some "SHA1",
    digits := some 6, period := some 30, issuerExt := some "Acme" }

/-- A complete record with a non-empty `issuerInt`, for the C5 witness. -/
def c5syn : Token :=
  { type := some "HOTP", label := some "w", secret := some [2], algo := some "SHA256",
    digits := some 8, period := some 60, issuerInt := some "Bank" }

/-! ### Round-trip lemmas for base32 -/

theorem bitsVal_byteBits (b : Nat) (hb : b < 256) : bitsVal (byteBits b) = b := by
  simp only [byteBits, bitsVal, List.foldl]
  omega

theorem byteBits_length (b : Nat) : (byteBits b).length = 8 := rfl

theorem byteBits_le_one (b : Nat) : ∀ x ∈ byteBits b, x ≤ 1 := by
  intro x hx
  simp only [byteBits, List.mem_cons, List.not_mem_nil, or_false] at hx
  rcases hx with h | h | h | h | h | h | h | h <;> subst h <;> omega

theorem b32CharVal_natToB32Char (v : Nat) (hv : v < 32) :
    b32CharVal (natToB32Char v) = v := by
  revert hv
  revert v
  decide

theorem natToB32Char_ne_pad (v : Nat) : natToB32Char v ≠ '=' := by
  by_cases hv : v < 32
  · revert hv; revert v; decide
  · have h32 : b32chars.length ≤ v := by
      simp only [b32chars, List.length]
      omega
    rw [natToB32Char, List.getD_eq_default _ _ h32]
    decide

theorem charBits_natToB32Char (g : List Nat) (hlen : g.length = 5)
    (hle : ∀ x ∈ g, x ≤ 1) : charBits (natToB32Char (bitsVal g)) = g := by
  match g, hlen with
  | [a, b, c, d, e], _ =>
    have ha : a ≤ 1 := hle a (by simp)
    have hb : b ≤ 1 := hle b (by simp)
    have hc : c ≤ 1 := hle c (by simp)
    have hd : d ≤ 1 := hle d (by simp)
    have he : e ≤ 1 := hle e (by simp)
    have hval : bitsVal [a, b, c, d, e] = 16 * a + 8 * b + 4 * c + 2 * d + e := by
      simp only [bitsVal, List.foldl]
      omega
    have hlt : bitsVal [a, b, c, d, e] < 32 := by omega
    have hcv : b32CharVal (natToB32Char (bitsVal [a, b, c, d, e])) = bitsVal [a, b, c, d, e] :=
      b32CharVal_natToB32Char _ hlt
    simp only [charBits]
    rw [hcv, hval]
    have e1 : (16 * a + 8 * b + 4 * c + 2 * d + e) / 16 % 2 = a := by omega
    have e2 : (16 * a + 8 * b + 4 * c + 2 * d + e) / 8 % 2 = b := by omega
    have e3 : (16 * a + 8 * b + 4 * c + 2 * d + e) / 4 % 2 = c := by omega
    have e4 : (16 * a + 8 * b + 4 * c + 2 * d + e) / 2 % 2 = d := by omega
    have e5 : (16 * a + 8 * b + 4 * c + 2 * d + e) % 2 = e := by omega
    rw [e1, e2, e3, e4, e5]

theorem chunks5_append (A B : List Nat) (h : A.length = 5) :
    chunks5 (A ++ B) = A :: chunks5 B := by
  match A, h with
  | [a, b, c, d, e], _ => rfl

theorem chunks8_append (A B : List Nat) (h : A.length = 8) :
    chunks8 (A ++ B) = A :: chunks8 B := by
  match A, h with
  | [a, b, c, d, e, f, g, h8], _ => rfl

theorem chunks5_flatten (l : List Nat) (h : l.length % 5 = 0) :
    (chunks5 l).flatten = l := by
  induction l using chunks5.induct with
  | case1 a b c d e rest ih =>
      have hr : rest.length % 5 = 0 := by
        simp only [List.length_cons] at h
        omega
      simp only [chunks5, List.flatten_cons, ih hr]
      rfl
  | case2 => rfl
  | case3 a => simp at h
  | case4 a b => simp at h
  | case5 a b c => simp at h
  | case6 a b c d => simp at h

theorem chunks5_mem_length (l : List Nat) (h : l.length % 5 = 0) :
    ∀ c ∈ chunks5 l, c.length = 5 := by
  induction l using chunks5.induct with
  | case1 a b c d e rest ih =>
      intro c hc
      have hr : rest.length % 5 = 0 := by
        simp only [List.length_cons] at h
        omega
      simp only [chunks5, List.mem_cons] at hc
      rcases hc with hc | hc
      · subst hc; rfl
      · exact ih hr c hc
  | case2 => intro c hc; simp [chunks5] at hc
  | case3 a => simp at h
  | case4 a b => simp at h
  | case5 a b c => simp at h
  | case6 a b c d => simp at h

theorem bytesBits_length (data : List Nat) :
    ((data.map byteBits).flatten).length = 8 * data.length := by
  induction data with
  | nil => rfl
  | cons b rest ih =>
      simp only [List.map_cons, List.flatten_cons, List.length_append, ih,
        byteBits_length, List.length_cons]
      omega

theorem bytesBits_le_one (data : List Nat) :
    ∀ x ∈ (data.map byteBits).flatten, x ≤ 1 := by
  intro x hx
  rw [List.mem_flatten] at hx
  obtain ⟨l, hl, hxl⟩ := hx
  rw [List.mem_map] at hl
  obtain ⟨b, _, rfl⟩ := hl
  exact byteBits_le_one b x hxl

theorem chunks8_map_bitsVal (data : List Nat) (h : ∀ b ∈ data, b < 256) :
    (chunks8 ((data.map byteBits).flatten)).map bitsVal = data := by
  induction data with
  | nil => rfl
  | cons b rest ih =>
      simp only [List.map_cons, List.flatten_cons]
      rw [chunks8_append _ _ (byteBits_length b)]
      simp only [List.map_cons]
      rw [bitsVal_byteBits b (h b (by simp)), ih (fun x hx => h x (by simp [hx]))]

theorem dropTrailingPad_append (A : List Char) (p : Nat) (hA : ∀ c ∈ A, c ≠ '=') :
    dropTrailingPad (A ++ List.replicate p '=') = A := by
  unfold dropTrailingPad
  rw [List.reverse_append, List.reverse_replicate]
  have h1 : List.dropWhile (fun c => c == '=') (List.replicate p '=' ++ A.reverse) =
      List.dropWhile (fun c => c == '=') A.reverse := by
    induction p with
    | zero => simp
    | succ n ih =>
        rw [List.replicate_succ, List.cons_append, List.dropWhile_cons]
        simp [ih]
  rw [h1]
  have h2 : List.dropWhile (fun c => c == '=') A.reverse = A.reverse := by
    cases hA2 : A.reverse with
    | nil => rfl
    | cons x t =>
        have hx : x ∈ A := by
          rw [← List.mem_reverse, hA2]
          simp
        have hxe : ¬(x == '=') = true := by simpa using hA x hx
        rw [List.dropWhile_cons]
        simp [hxe]
  rw [h2, List.reverse_reverse]

theorem b32_roundtrip (data : List Nat) (h : ∀ b ∈ data, b < 256) :
    b32decodeChars (b32encodeChars data) = data := by
  have hbitsLen : ((data.map byteBits).flatten).length = 8 * data.length :=
    bytesBits_length data
  set bits := (data.map byteBits).flatten with hbits
  set k := (5 - bits.length % 5) % 5 with hk
  have hpadLen : (padBits bits).length = bits.length + k := by
    simp [padBits, hk]
  have hpadMod : (padBits bits).length % 5 = 0 := by
    rw [hpadLen]
    omega
  have hpadLe : ∀ x ∈ padBits bits, x ≤ 1 := by
    intro x hx
    rw [padBits, List.mem_append] at hx
    rcases hx with hx | hx
    · exact bytesBits_le_one data x hx
    · rw [List.eq_of_mem_replicate hx]
      omega
  -- the data characters of the encoding
  set chars := (chunks5 (padBits bits)).map (fun g => natToB32Char (bitsVal g)) with hchars
  have hcharsNe : ∀ c ∈ chars, c ≠ '=' := by
    intro c hc
    rw [hchars, List.mem_map] at hc
    obtain ⟨g, _, rfl⟩ := hc
    exact natToB32Char_ne_pad _
  have henc : b32encodeChars data = chars ++ List.replicate ((8 - chars.length % 8) % 8) '=' := rfl
  rw [henc]
  unfold b32decodeChars
  rw [dropTrailingPad_append chars _ hcharsNe]
  have hmapBack : chars.map charBits = chunks5 (padBits bits) := by
    rw [hchars, List.map_map]
    have : ∀ g ∈ chunks5 (padBits bits),
        (charBits ∘ fun g => natToB32Char (bitsVal g)) g = id g := by
      intro g hg
      have hglen : g.length = 5 := chunks5_mem_length _ hpadMod g hg
      have hgle : ∀ x ∈ g, x ≤ 1 := by
        intro x hx
        have hxp : x ∈ (chunks5 (padBits bits)).flatten := by
          rw [List.mem_flatten]
          exact ⟨g, hg, hx⟩
        rw [chunks5_flatten _ hpadMod] at hxp
        exact hpadLe x hxp
      simp only [Function.comp_apply, id_eq]
      exact charBits_natToB32Char g hglen hgle
    rw [List.map_congr_left this, List.map_id]
  rw [hmapBack, chunks5_flatten _ hpadMod]
  have htake : (padBits bits).take (8 * ((padBits bits).length / 8)) = bits := by
    have hdiv : (padBits bits).length / 8 = data.length := by
      rw [hpadLen, hbitsLen]
      omega
    rw [hdiv, padBits, List.take_left' (by rw [hbitsLen])]
  show (chunks8 ((padBits bits).take (8 * ((padBits bits).length / 8)))).map bitsVal = data
  rw [htake]
  exact chunks8_map_bitsVal data h

/-- C1: Secret round-trip: for every byte sequence of length 1 to 64 with
values in [-128,127], the encoder maps each element `b` to `(b + 256) mod 256`
and base32-encodes the result (RFC 4648, padding kept), and base32-decoding
that string recovers exactly the unsigned-normalized form of the input. -/
theorem secret_roundtrip (s : List Int) (_h1 : 1 ≤ s.length) (_h2 : s.length ≤ 64)
    (_h3 : ∀ b ∈ s, -128 ≤ b ∧ b ≤ 127) :
    secret_to_b32 s = String.mk (b32encodeChars (s.map (fun b => ((b + 256) % 256).toNat)))
    ∧ b32decode (secret_to_b32 s) = s.map (fun b => ((b + 256) % 256).toNat) := by
  refine ⟨rfl, ?_⟩
  show b32decodeChars (b32encodeChars (s.map (fun b => ((b + 256) % 256).toNat)))
      = s.map (fun b => ((b + 256) % 256).toNat)
  apply b32_roundtrip
  intro b hb
  rw [List.mem_map] at hb
  obtain ⟨x, _, rfl⟩ := hb
  have h0 : (0 : Int) ≤ (x + 256) % 256 := Int.emod_nonneg _ (by norm_num)
  have hlt : (x + 256) % 256 < 256 := Int.emod_lt_of_pos _ (by norm_num)
  omega

/-- Witness for C1 at the concrete secret `[0, -1, 127, -128]`. -/
theorem secret_roundtrip_witness :
    1 ≤ ([0, -1, 127, -128] : List Int).length ∧
    ([0, -1, 127, -128] : List Int).length ≤ 64 ∧
    (∀ b ∈ ([0, -1, 127, -128] : List Int), -128 ≤ b ∧ b ≤ 127) ∧
    (secret_to_b32 [0, -1, 127, -128]
        = String.mk (b32encodeChars (([0, -1, 127, -128] : List Int).map
            (fun b => ((b + 256) % 256).toNat)))
      ∧ b32decode (secret_to_b32 [0, -1, 127, -128])
        = ([0, -1, 127, -128] : List Int).map (fun b => ((b + 256) % 256).toNat)) :=
  ⟨by decide, by decide, by decide,
    secret_roundtrip [0, -1, 127, -128] (by decide) (by decide) (by decide)⟩

/-! ### Layout: closed form of the loop -/

theorem layout_step_mkState (n : Nat) (pl : List Placement) (qc : String × String) :
    layout_step (mkState n pl) qc = mkState (n + 1) (pl ++ [placeAt n qc]) := by
  cases n with
  | zero => rfl
  | succ m =>
      have h12 : m % 12 < 12 := Nat.mod_lt _ (by norm_num)
      simp only [mkState, layout_step, placeAt, slot_page, slot_x, slot_y, QRCODE_W, QRCODE_H]
      split_ifs with h1 h2 h3 <;>
        simp only [LayoutState.mk.injEq, Placement.mk.injEq, List.append_cancel_left_eq,
          List.cons.injEq, and_true, true_and] <;>
        refine ⟨by omega, by omega, by omega, by omega, by omega, by omega⟩

theorem foldl_layout_step (l : List (String × String)) :
    ∀ (n : Nat) (pl : List Placement),
      l.foldl layout_step (mkState n pl) = mkState (n + l.length) (pl ++ placed_from n l) := by
  induction l with
  | nil => intro n pl; simp [placed_from]
  | cons qc rest ih =>
      intro n pl
      rw [List.foldl_cons, layout_step_mkState, ih (n + 1) (pl ++ [placeAt n qc])]
      have hn : n + 1 + rest.length = n + (qc :: rest).length := by
        simp [List.length_cons]
        omega
      rw [hn]
      simp [placed_from, List.append_assoc]

theorem write_to_pdf_file_eq (l : List (String × String)) :
    write_to_pdf_file l = mkState l.length (placed_from 0 l) := by
  have h0 : ({ page := 1, x := 10, y := 10, placements := [] } : LayoutState)
      = mkState 0 [] := rfl
  rw [write_to_pdf_file, h0, foldl_layout_step]
  simp

theorem placed_from_map_entry (l : List (String × String)) :
    ∀ n, (placed_from n l).map (fun p => (p.text, p.image)) = l := by
  induction l with
  | nil => intro n; rfl
  | cons qc rest ih =>
      intro n
      simp [placed_from, placeAt, ih (n + 1)]

theorem mem_placed_from (l : List (String × String)) :
    ∀ (n : Nat) (p : Placement), p ∈ placed_from n l →
      ∃ k, n ≤ k ∧ k < n + l.length
        ∧ p.page = slot_page k ∧ p.x = slot_x k ∧ p.y = slot_y k := by
  induction l with
  | nil => intro n p hp; simp [placed_from] at hp
  | cons qc rest ih =>
      intro n p hp
      simp only [placed_from, List.mem_cons] at hp
      rcases hp with hp | hp
      · exact ⟨n, le_refl n, by simp only [List.length_cons]; omega, by simp [hp, placeAt]⟩
      · obtain ⟨k, hk1, hk2, hk3⟩ := ih (n + 1) p hp
        exact ⟨k, by omega, by simp only [List.length_cons]; omega, hk3⟩

theorem slot_separation (k j : Nat) (hk : k < j) (hpage : slot_page k = slot_page j) :
    slot_x k + QRCODE_W ≤ slot_x j ∨ slot_x j + QRCODE_W ≤ slot_x k
      ∨ slot_y k + QRCODE_H ≤ slot_y j ∨ slot_y j + QRCODE_H ≤ slot_y k := by
  simp only [slot_page, slot_x, slot_y, QRCODE_W, QRCODE_H] at *
  omega

theorem pairwise_placed_from (l : List (String × String)) :
    ∀ n, (placed_from n l).Pairwise (fun p q => p.page = q.page → disjointCells p q) := by
  induction l with
  | nil => intro n; exact List.Pairwise.nil
  | cons qc rest ih =>
      intro n
      rw [placed_from, List.pairwise_cons]
      refine ⟨?_, ih (n + 1)⟩
      intro q hq hpage
      obtain ⟨k, hk1, hk2, hq1, hq2, hq3⟩ := mem_placed_from rest (n + 1) q hq
      have hsep := slot_separation n k (by omega)
        (by rw [← hq1, ← hpage]; rfl)
      rw [disjointCells]
      simp only [placeAt] at *
      rw [hq2, hq3]
      exact hsep

theorem foldl_max_pages (l : List (String × String)) :
    ∀ (n a : Nat), ((placed_from n l).map (fun p => p.page)).foldl max a
      = if l.length = 0 then a else max a (slot_page (n + l.length - 1)) := by
  induction l with
  | nil => intro n a; rfl
  | cons qc rest ih =>
      intro n a
      simp only [placed_from, List.map_cons, List.foldl_cons]
      rw [ih (n + 1) (max a (placeAt n qc).page)]
      rcases Nat.eq_zero_or_pos rest.length with h0 | hpos
      · rw [if_pos h0, if_neg (by simp only [List.length_cons]; omega)]
        simp only [placeAt, List.length_cons]
        have harith : n + (rest.length + 1) - 1 = n := by omega
        rw [harith]
      · rw [if_neg (by omega), if_neg (by simp only [List.length_cons]; omega)]
        simp only [placeAt, List.length_cons]
        have h1 : n + 1 + rest.length - 1 = n + (rest.length + 1) - 1 := by omega
        rw [h1]
        have hmono : slot_page n ≤ slot_page (n + (rest.length + 1) - 1) := by
          simp only [slot_page]
          have h2 : n / 12 ≤ (n + (rest.length + 1) - 1) / 12 :=
            Nat.div_le_div_right (by omega)
          omega
        omega

theorem mkState_placements (n : Nat) (pl : List Placement) :
    (mkState n pl).placements = pl := by
  cases n <;> rfl

theorem pages_used_eq (l : List (String × String)) :
    pages_used l = (l.length + 11) / 12 := by
  rw [pages_used, write_to_pdf_file_eq, mkState_placements, foldl_max_pages l 0 0]
  rcases Nat.eq_zero_or_pos l.length with h0 | hpos
  · simp [h0]
  · rw [if_neg (by omega)]
    simp only [slot_page, Nat.zero_add]
    omega

theorem count_pages_le_twelve (l : List (String × String)) (pg : Nat) :
    ∀ n, ((placed_from n l).filter (fun q => q.page == pg)).length ≤ 12 := by
  intro n
  -- the placements on page pg sit at slots k with k / 12 = pg - 1,
  -- a window of at most twelve consecutive slots
  have key : ∀ (m : List (String × String)) (j : Nat),
      ((placed_from j m).filter (fun q => q.page == pg)).length
        = ((List.range' j m.length).filter (fun k => slot_page k == pg)).length := by
    intro m
    induction m with
    | nil => intro j; rfl
    | cons qc rest ih =>
        intro j
        simp only [placed_from, List.length_cons, List.range'_succ, List.filter_cons]
        by_cases h : slot_page j == pg
        · rw [if_pos (by simpa [placeAt] using h), if_pos h]
          simp [ih (j + 1)]
        · rw [if_neg (by simpa [placeAt] using h), if_neg h]
          exact ih (j + 1)
  rw [key l n]
  by_cases hpg : pg = 0
  · have hnone : ∀ k, ¬(slot_page k == pg) = true := by
      intro k
      simp [slot_page, hpg]
    rw [List.filter_eq_nil_iff.mpr (fun k _ => hnone k)]
    simp
  · set f := (List.range' n l.length).filter (fun k => slot_page k == pg) with hf
    have hnd : f.Nodup := List.Nodup.filter _ (List.nodup_range' n l.length 1 Nat.one_pos)
    have hsub : f.toFinset ⊆ Finset.Ico (12 * (pg - 1)) (12 * (pg - 1) + 12) := by
      intro k hk
      rw [List.mem_toFinset, hf, List.mem_filter] at hk
      obtain ⟨_, hk2⟩ := hk
      have hkpg : slot_page k = pg := by simpa using hk2
      simp only [slot_page] at hkpg
      rw [Finset.mem_Ico]
      omega
    calc f.length = f.toFinset.card := (List.toFinset_card_of_nodup hnd).symm
      _ ≤ (Finset.Ico (12 * (pg - 1)) (12 * (pg - 1) + 12)).card := Finset.card_le_card hsub
      _ = 12 := by rw [Nat.card_Ico]; omega

/-! ### Claim C4: layout wrap -/

/-- C4 counterexample: on ten entries with `W = H = 35` the first row
receives only two placements, not four: the third placement already sits at
`y = 58`, so the first four placement heights are `[10, 10, 58, 58]`, not
`[10, 10, 10, 10]` as four placements on the first row would require. -/
theorem layout_wrap_counterexample :
    ((write_to_pdf_file (demo_entries 10)).placements.map (fun p => p.y)).take 4
        = [10, 10, 58, 58]
    ∧ ((write_to_pdf_file (demo_entries 10)).placements.map (fun p => p.y)).take 4
        ≠ [10, 10, 10, 10] := by
  constructor
  · decide
  · decide

/-- C4 (amended): the cursor starts at `(10, 10)` on page 1; for each entry
in input order the engine places at the slot positions `slot_x`/`slot_y`/
`slot_page` (wrapping `x` back to 10 with `y` increased by 48 after the 2nd
placement of each row, and starting a fresh page with the cursor reset to
`(10, 10)` once `y` exceeds 250); every entry is placed exactly once, so no
entry of a prior page is re-placed.  On ten entries with `W = H = 35` the
rows hold two entries each, and on thirteen entries the thirteenth placement
opens page 2 at `(10, 10)`. -/
theorem layout_wrap (l : List (String × String)) (qc : String × String) :
    (write_to_pdf_file l).placements = placed_from 0 l
    ∧ (write_to_pdf_file (qc :: l)).placements.head?
        = some { page := 1, x := 10, y := 10, image := qc.2, text := qc.1 }
    ∧ (write_to_pdf_file l).placements.map (fun p => (p.text, p.image)) = l
    ∧ (write_to_pdf_file (demo_entries 10)).placements.map (fun p => (p.page, p.x, p.y))
        = [(1, 10, 10), (1, 105, 10), (1, 10, 58), (1, 105, 58), (1, 10, 106), (1, 105, 106),
           (1, 10, 154), (1, 105, 154), (1, 10, 202), (1, 105, 202)]
    ∧ (write_to_pdf_file (demo_entries 13)).placements.getD 12 default
        = { page := 2, x := 10, y := 10, image := "12.png", text := "12" } := by
  refine ⟨?_, ?_, ?_, by decide, by decide⟩
  · rw [write_to_pdf_file_eq, mkState_placements]
  · rw [write_to_pdf_file_eq, mkState_placements]
    rfl
  · rw [write_to_pdf_file_eq, mkState_placements, placed_from_map_entry]

/-! ### Claim C7: layout invariants -/

/-- C7: every input entry is placed exactly once; two placements on the same
page occupy disjoint `35 × 35` cells; the highest page receiving a placement
is `⌈n/12⌉`, and no page receives more than twelve placements — twelve being
the capacity a page has under the thresholds 150 and 250 with steps 95 and
48 — so the layout uses the minimum number of pages. -/
theorem layout_invariants (l : List (String × String)) (pg : Nat) :
    (write_to_pdf_file l).placements.map (fun p => (p.text, p.image)) = l
    ∧ (write_to_pdf_file l).placements.Pairwise
        (fun p q => p.page = q.page → disjointCells p q)
    ∧ pages_used l = (l.length + 11) / 12
    ∧ ((write_to_pdf_file l).placements.filter (fun q => q.page == pg)).length ≤ 12 := by
  refine ⟨?_, ?_, pages_used_eq l, ?_⟩
  · rw [write_to_pdf_file_eq, mkState_placements, placed_from_map_entry]
  · rw [write_to_pdf_file_eq, mkState_placements]
    exact pairwise_placed_from l 0
  · rw [write_to_pdf_file_eq, mkState_placements]
    exact count_pages_le_twelve l pg 0

/-! ### Claim C6: caption sort -/

/-- C6: the (caption, code) list handed to the layout engine is a
permutation of the generated list, ordered by caption ascending in the
lexicographic string order — hence independent of the order in which the
records were decoded. -/
theorem caption_sort_order (l : List (String × String)) :
    (sort_qrcodes l).Perm l
    ∧ (sort_qrcodes l).Pairwise (fun a b => a.1 ≤ b.1) := by
  constructor
  · exact List.mergeSort_perm l _
  · have h := @List.sorted_mergeSort (String × String)
      (fun a b => decide (a.1 ≤ b.1))
      (fun a b c hab hbc => by
        simp only [decide_eq_true_eq] at *
        exact le_trans hab hbc)
      (fun a b => by
        simp only [Bool.or_eq_true, decide_eq_true_eq]
        exact le_total a.1 b.1)
      l
    exact h.imp (fun hab => by simpa using hab)

/-! ### Except helpers -/

@[simp]
theorem except_ok_bind {α β : Type} (a : α) (f : α → Except PErr β) :
    (Except.ok a >>= f) = f a := rfl

@[simp]
theorem except_error_bind {α β : Type} (e : PErr) (f : α → Except PErr β) :
    ((Except.error e : Except PErr α) >>= f) = Except.error e := rfl

/-! ### Issuer resolution -/

theorem resolve_issuer_eq_first_nonempty (t : Token) (i : Nat) :
    resolve_issuer t i
      = (first_nonempty [t.issuerInt, t.issuerExt, t.issuerAlt, t.labelAlt]).getD
          ("Unknown" ++ toString i) := by
  rcases t with ⟨ty, lb, sec, al, dg, pd, iInt, iExt, iAlt, lAlt⟩
  simp only [resolve_issuer, truthy]
  cases iInt <;> cases iExt <;> cases iAlt <;> cases lAlt <;>
    simp [first_nonempty] <;> split_ifs <;> simp_all

theorem generate_images_go_get (tokens : List Token) :
    ∀ (i : Nat) (res : List (String × String)),
      generate_images_go i tokens = Except.ok res →
      ∀ k, k < tokens.length →
        encode_token (tokens.getD k {}) (i + k) = Except.ok (res.getD k ("", "")) := by
  induction tokens with
  | nil => intro i res _ k hk; simp at hk
  | cons t rest ih =>
      intro i res h k hk
      rw [generate_images_go] at h
      cases hp : encode_token t i with
      | error e => rw [hp] at h; simp at h
      | ok p =>
          rw [hp] at h
          cases hl : generate_images_go (i + 1) rest with
          | error e => rw [hl] at h; simp at h
          | ok lres =>
              rw [hl] at h
              simp only [except_ok_bind, Except.ok.injEq] at h
              subst h
              cases k with
              | zero => simpa using hp
              | succ k2 =>
                  have hk2 : k2 < rest.length := by simpa using hk
                  have hrec := ih (i + 1) lres hl k2 hk2
                  have harith : i + 1 + k2 = i + (k2 + 1) := by omega
                  rw [harith] at hrec
                  simpa using hrec

/-- C2: the resolved issuer is the first present non-empty field in the
priority order issuerInt, issuerExt, issuerAlt, labelAlt, with the fallback
`Unknown{i}` where `i` is the record's zero-based position among all records
of the run: in a successful run the k-th output pair is the encoding of the
k-th token at occurrence index k. -/
theorem issuer_resolution (t : Token) (i : Nat) (tokens : List Token)
    (res : List (String × String)) (hres : generate_images tokens = Except.ok res)
    (k : Nat) (hk : k < tokens.length) :
    resolve_issuer t i
      = (first_nonempty [t.issuerInt, t.issuerExt, t.issuerAlt, t.labelAlt]).getD
          ("Unknown" ++ toString i)
    ∧ encode_token (tokens.getD k {}) k = Except.ok (res.getD k ("", "")) := by
  refine ⟨resolve_issuer_eq_first_nonempty t i, ?_⟩
  have h := generate_images_go_get tokens 0 res hres k hk
  simpa using h

/-- Witness for C2: an all-empty record at position 7 resolves to
`Unknown7`, and the single-token run on `c2tok` encodes it at index 0. -/
theorem issuer_resolution_witness :
    resolve_issuer {} 7
      = (first_nonempty [({} : Token).issuerInt, ({} : Token).issuerExt,
          ({} : Token).issuerAlt, ({} : Token).labelAlt]).getD ("Unknown" ++ toString 7)
    ∧ encode_token (([c2tok] : List Token).getD 0 {}) 0 = Except.ok (c2res.getD 0 ("", "")) :=
  issuer_resolution {} 7 [c2tok] c2res rfl 0 (by decide)

/-! ### URI construction -/

theorem string_ext_data {a b : String} (h : a.data = b.data) : a = b := by
  cases a
  cases b
  exact congrArg String.mk h

theorem encode_token_ok (t : Token) (i : Nat) (ty lb al : String) (sec : List Int)
    (dg pd : Int) (hty : t.type = some ty) (hlb : t.label = some lb)
    (hsec : t.secret = some sec) (hal : t.algo = some al) (hdg : t.digits = some dg)
    (hpd : t.period = some pd) :
    encode_token t i = Except.ok (token_caption t lb,
      "otpauth://" ++ str_lower ty ++ "/" ++ quote (token_caption t lb) ++ "?"
        ++ query_data [("secret", secret_to_b32 sec), ("issuer", resolve_issuer t i),
            ("algorithm", al), ("digits", toString dg), ("period", toString pd)]) := by
  unfold encode_token
  rw [hsec, hal, hdg, hpd, hlb, hty]
  rfl

/-- C3 (amended): for every record with its required fields present, the
emitted URI is `otpauth://<type lowercased>/<quoted caption>?` followed by
the query pairs in the fixed order secret, issuer, algorithm, digits,
period, each key and value quoted independently; the caption is
`<issuerExt>:<label>` when `issuerExt` is present AND non-empty, and
`<label>` otherwise. -/
theorem uri_construction (t : Token) (i : Nat) (ty lb al : String) (sec : List Int)
    (dg pd : Int) (hty : t.type = some ty) (hlb : t.label = some lb)
    (hsec : t.secret = some sec) (hal : t.algo = some al) (hdg : t.digits = some dg)
    (hpd : t.period = some pd) :
    encode_token t i = Except.ok (token_caption t lb,
      "otpauth://" ++ str_lower ty ++ "/" ++ quote (token_caption t lb) ++ "?"
        ++ quote "secret" ++ "=" ++ quote (secret_to_b32 sec)
        ++ "&" ++ quote "issuer" ++ "=" ++ quote (resolve_issuer t i)
        ++ "&" ++ quote "algorithm" ++ "=" ++ quote al
        ++ "&" ++ quote "digits" ++ "=" ++ quote (toString dg)
        ++ "&" ++ quote "period" ++ "=" ++ quote (toString pd))
    ∧ token_caption t lb
        = (if truthy t.issuerExt then t.issuerExt.getD "" ++ ":" ++ lb else lb) := by
  refine ⟨?_, rfl⟩
  rw [encode_token_ok t i ty lb al sec dg pd hty hlb hsec hal hdg hpd]
  suffices h : "otpauth://" ++ str_lower ty ++ "/" ++ quote (token_caption t lb) ++ "?"
        ++ query_data [("secret", secret_to_b32 sec), ("issuer", resolve_issuer t i),
            ("algorithm", al), ("digits", toString dg), ("period", toString pd)]
      = "otpauth://" ++ str_lower ty ++ "/" ++ quote (token_caption t lb) ++ "?"
        ++ quote "secret" ++ "=" ++ quote (secret_to_b32 sec)
        ++ "&" ++ quote "issuer" ++ "=" ++ quote (resolve_issuer t i)
        ++ "&" ++ quote "algorithm" ++ "=" ++ quote al
        ++ "&" ++ quote "digits" ++ "=" ++ quote (toString dg)
        ++ "&" ++ quote "period" ++ "=" ++ quote (toString pd) by rw [h]
  apply string_ext_data
  simp [query_data, join_amp, String.data_append, List.append_assoc]

/-- Witness for C3 at the record `c3full`. -/
theorem uri_construction_witness :
    c3full.type = some "TOTP" ∧ c3full.label = some "me@x" ∧ c3full.secret = some [1, -1]
    ∧ c3full.algo = some "SHA1" ∧ c3full.digits = some 6 ∧ c3full.period = some 30
    ∧ (encode_token c3full 0 = Except.ok (token_caption c3full "me@x",
        "otpauth://" ++ str_lower "TOTP" ++ "/" ++ quote (token_caption c3full "me@x") ++ "?"
          ++ quote "secret" ++ "=" ++ quote (secret_to_b32 [1, -1])
          ++ "&" ++ quote "issuer" ++ "=" ++ quote (resolve_issuer c3full 0)
          ++ "&" ++ quote "algorithm" ++ "=" ++ quote "SHA1"
          ++ "&" ++ quote "digits" ++ "=" ++ quote (toString (6 : Int))
          ++ "&" ++ quote "period" ++ "=" ++ quote (toString (30 : Int)))
      ∧ token_caption c3full "me@x"
          = (if truthy c3full.issuerExt then c3full.issuerExt.getD "" ++ ":" ++ "me@x"
              else "me@x")) :=
  ⟨rfl, rfl, rfl, rfl, rfl, rfl,
    uri_construction c3full 0 "TOTP" "me@x" "SHA1" [1, -1] 6 30 rfl rfl rfl rfl rfl rfl⟩

/-- C3 counterexample: on a record whose `issuerExt` is present but empty
the code emits the caption `label` (here `"x"`), while the claim as stated
("when issuerExt is present") predicts `":x"` — so the emitted URI path
differs from the claimed one. -/
theorem uri_construction_counterexample :
    (encode_token c3tok 0).toOption = some ("x",
      "otpauth://" ++ str_lower "TOTP" ++ "/" ++ quote "x" ++ "?"
        ++ quote "secret" ++ "=" ++ quote (secret_to_b32 [0])
        ++ "&" ++ quote "issuer" ++ "=" ++ quote "Foo"
        ++ "&" ++ quote "algorithm" ++ "=" ++ quote "SHA1"
        ++ "&" ++ quote "digits" ++ "=" ++ quote (toString (6 : Int))
        ++ "&" ++ quote "period" ++ "=" ++ quote (toString (30 : Int)))
    ∧ c3_claim_caption c3tok "x" = ":x"
    ∧ ("x" : String) ≠ c3_claim_caption c3tok "x"
    ∧ quote "x" ≠ quote (c3_claim_caption c3tok "x") := by
  refine ⟨?_, by decide, by decide, by decide⟩
  decide

/-! ### URI determinism -/

/-- C5 counterexample: two equal records whose issuer fields are all absent
receive different URIs within one run — the synthesized issuers are
`Unknown0` and `Unknown1`. -/
theorem uri_determinism_counterexample :
    (generate_images [c5tok, c5tok]).toOption
      = some
          [("y", "otpauth://totp/y?secret=AA%3D%3D%3D%3D%3D%3D&issuer=Unknown0&algorithm=SHA1&digits=6&period=30"),
           ("y", "otpauth://totp/y?secret=AA%3D%3D%3D%3D%3D%3D&issuer=Unknown1&algorithm=SHA1&digits=6&period=30")]
    ∧ ("otpauth://totp/y?secret=AA%3D%3D%3D%3D%3D%3D&issuer=Unknown0&algorithm=SHA1&digits=6&period=30" : String)
      ≠ "otpauth://totp/y?secret=AA%3D%3D%3D%3D%3D%3D&issuer=Unknown1&algorithm=SHA1&digits=6&period=30" := by
  refine ⟨?_, by decide⟩
  decide

/-- C5 (amended): the URI is a deterministic function of the record and its
occurrence index — equal records encoded at equal indices get byte-identical
URIs — and a function of the record alone whenever some issuer field
(issuerInt, issuerExt, issuerAlt, labelAlt) is present and non-empty. -/
theorem uri_determinism (t u : Token) (i j : Nat) (heq : t = u) :
    (i = j → encode_token t i = encode_token u j)
    ∧ (issuer_synthetic t = false → encode_token t i = encode_token u j) := by
  subst heq
  constructor
  · rintro rfl
    rfl
  · intro hsyn
    have hres : resolve_issuer t i = resolve_issuer t j := by
      unfold issuer_synthetic at hsyn
      unfold resolve_issuer
      split_ifs <;> simp_all
    unfold encode_token
    rw [hres]

/-- Witness for C5 at the record `c5syn` and indices 0 and 5. -/
theorem uri_determinism_witness :
    c5syn = c5syn ∧ issuer_synthetic c5syn = false
    ∧ encode_token c5syn 0 = encode_token c5syn 5 :=
  ⟨rfl, by decide, (uri_determinism c5syn c5syn 0 5 rfl).2 (by decide)⟩

/-! ### Malformed records -/

theorem encode_token_error_of_missing (t : Token) (i : Nat) (h : missing_required t) :
    encode_token t i = Except.error PErr.malformedRecord := by
  rcases t with ⟨ty, lb, sec, al, dg, pd, iInt, iExt, iAlt, lAlt⟩
  simp only [missing_required] at h
  unfold encode_token
  cases sec <;> cases al <;> cases dg <;> cases pd <;> cases lb <;> cases ty <;>
    simp_all [req]

theorem encode_token_ok_of_complete (t : Token) (i : Nat) (h : ¬missing_required t) :
    ∃ p, encode_token t i = Except.ok p := by
  rcases t with ⟨ty, lb, sec, al, dg, pd, iInt, iExt, iAlt, lAlt⟩
  simp only [missing_required] at h
  push_neg at h
  obtain ⟨h1, h2, h3, h4, h5, h6⟩ := h
  cases ty with
  | none => exact absurd rfl h1
  | some tyv =>
      cases lb with
      | none => exact absurd rfl h3
      | some lbv =>
          cases sec with
          | none => exact absurd rfl h2
          | some secv =>
              cases al with
              | none => exact absurd rfl h4
              | some alv =>
                  cases dg with
                  | none => exact absurd rfl h5
                  | some dgv =>
                      cases pd with
                      | none => exact absurd rfl h6
                      | some pdv => exact ⟨_, rfl⟩

theorem generate_images_go_error (ts : List Token) :
    ∀ i, (∃ t ∈ ts, missing_required t) →
      generate_images_go i ts = Except.error PErr.malformedRecord := by
  induction ts with
  | nil => intro i h; obtain ⟨t, ht, _⟩ := h; simp at ht
  | cons t rest ih =>
      intro i h
      by_cases hm : missing_required t
      · simp [generate_images_go, encode_token_error_of_missing t i hm]
      · obtain ⟨u, hu, hmu⟩ := h
        rcases List.mem_cons.mp hu with rfl | hu2
        · exact absurd hmu hm
        · obtain ⟨p, hp⟩ := encode_token_ok_of_complete t i hm
          simp [generate_images_go, hp, ih (i + 1) ⟨u, hu2, hmu⟩]

theorem parse_strings_result (jp : String → Option Token) :
    ∀ es, (∃ ts, parse_strings jp es = Except.ok ts)
      ∨ parse_strings jp es = Except.error PErr.malformedRecord := by
  intro es
  induction es with
  | nil => exact Or.inl ⟨[], rfl⟩
  | cons e rest ih =>
      obtain ⟨name, text⟩ := e
      by_cases hname : name = "tokenOrder"
      · simpa [parse_strings, hname] using ih
      · cases hjp : jp text with
        | none => exact Or.inr (by simp [parse_strings, hname, hjp])
        | some t =>
            rcases ih with ⟨ts, hts⟩ | herr
            · exact Or.inl ⟨t :: ts, by simp [parse_strings, hname, hjp, hts, Except.map]⟩
            · exact Or.inr (by simp [parse_strings, hname, hjp, herr, Except.map])

theorem parse_strings_bad_json (jp : String → Option Token) :
    ∀ es, (∃ p ∈ es, p.1 ≠ "tokenOrder" ∧ jp p.2 = none) →
      parse_strings jp es = Except.error PErr.malformedRecord := by
  intro es
  induction es with
  | nil => intro h; obtain ⟨p, hp, _⟩ := h; simp at hp
  | cons e rest ih =>
      intro h
      obtain ⟨name, text⟩ := e
      by_cases hname : name = "tokenOrder"
      · obtain ⟨p, hp, hp1, hp2⟩ := h
        rcases List.mem_cons.mp hp with rfl | hp3
        · exact absurd hname (by simpa using hp1)
        · simp [parse_strings, hname, ih ⟨p, hp3, hp1, hp2⟩]
      · cases hjp : jp text with
        | none => simp [parse_strings, hname, hjp]
        | some t =>
            obtain ⟨p, hp, hp1, hp2⟩ := h
            rcases List.mem_cons.mp hp with rfl | hp3
            · simp only at hp2
              rw [hp2] at hjp
              cases hjp
            · simp [parse_strings, hname, hjp, Except.map, ih ⟨p, hp3, hp1, hp2⟩]

theorem parse_strings_mem (jp : String → Option Token) :
    ∀ es ts, parse_strings jp es = Except.ok ts →
      ∀ p ∈ es, p.1 ≠ "tokenOrder" → ∀ t, jp p.2 = some t → t ∈ ts := by
  intro es
  induction es with
  | nil => intro ts _ p hp; simp at hp
  | cons e rest ih =>
      intro ts h p hp hp1 t ht
      obtain ⟨name, text⟩ := e
      by_cases hname : name = "tokenOrder"
      · simp only [parse_strings, if_pos hname] at h
        rcases List.mem_cons.mp hp with rfl | hp2
        · exact absurd (by simpa using hname) hp1
        · exact ih ts h p hp2 hp1 t ht
      · simp only [parse_strings, if_neg hname] at h
        cases hjp : jp text with
        | none => rw [hjp] at h; cases h
        | some u =>
            rw [hjp] at h
            cases hrec : parse_strings jp rest with
            | error e2 => rw [hrec] at h; simp [Except.map] at h
            | ok ts2 =>
                rw [hrec] at h
                simp only [Except.map, Except.ok.injEq] at h
                subst h
                rcases List.mem_cons.mp hp with rfl | hp2
                · simp only at ht
                  rw [ht] at hjp
                  cases hjp
                  exact List.mem_cons_self _ _
                · exact List.mem_cons_of_mem _ (ih ts2 hrec p hp2 hp1 t ht)

/-- C8: if any non-reserved entry of the credential document has a value
that is not valid JSON, or parses to a record missing one of the required
fields (type, secret, label, algorithm — the JSON key `algo` — digits,
period), the decode-and-encode run fails with `malformedRecord` and
produces no URI list. -/
theorem malformed_record (jp : String → Option Token) (entries : List (String × String))
    (h : ∃ p ∈ entries, p.1 ≠ "tokenOrder"
      ∧ (jp p.2 = none ∨ ∃ t, jp p.2 = some t ∧ missing_required t)) :
    decode_and_encode jp entries = Except.error PErr.malformedRecord := by
  obtain ⟨p, hp, hp1, hp2⟩ := h
  have hne : entries ≠ [] := by
    rintro rfl
    simp at hp
  obtain ⟨e0, rest, rfl⟩ := List.exists_cons_of_ne_nil hne
  rcases hp2 with hbad | ⟨t, hjt, hmt⟩
  · have hps := parse_strings_bad_json jp (e0 :: rest) ⟨p, hp, hp1, hbad⟩
    simp [decode_and_encode, parse_tokens_from_xml, hps]
  · rcases parse_strings_result jp (e0 :: rest) with ⟨ts, hts⟩ | herr
    · have htmem := parse_strings_mem jp (e0 :: rest) ts hts p hp hp1 t hjt
      have hgen := generate_images_go_error ts 0 ⟨t, htmem, hmt⟩
      simp [decode_and_encode, parse_tokens_from_xml, hts, generate_images, hgen]
    · simp [decode_and_encode, parse_tokens_from_xml, herr]

/-- Witness for C8: a single non-reserved entry whose value fails JSON
parsing aborts the run with `malformedRecord`. -/
theorem malformed_record_witness :
    (∃ p ∈ [("a", "notjson")], p.1 ≠ "tokenOrder"
      ∧ ((fun _ : String => (none : Option Token)) p.2 = none
        ∨ ∃ t, (fun _ : String => (none : Option Token)) p.2 = some t ∧ missing_required t))
    ∧ decode_and_encode (fun _ => none) [("a", "notjson")]
        = Except.error PErr.malformedRecord :=
  ⟨⟨("a", "notjson"), by simp, by decide, Or.inl rfl⟩,
    malformed_record (fun _ => none) [("a", "notjson")]
      ⟨("a", "notjson"), by simp, by decide, Or.inl rfl⟩⟩

/-! ### Container corruption -/

/-- C9: unwrapping depends only on the container bytes after the first 24
(they are skipped unconditionally); when zlib decompression of those bytes
fails, or when it yields zero bytes (on which the tar reader fails), the
whole run halts with `corruptContainer` before any token decoding. -/
theorem corrupt_container (decompress : List Nat → Option (List Nat))
    (tarEntries : List Nat → Option (List (String × List Nat)))
    (xmlOf : List Nat → List (String × String)) (jp : String → Option Token)
    (container c2 : List Nat) :
    (container.drop 24 = c2.drop 24 →
      extract_tokens_file decompress tarEntries container
        = extract_tokens_file decompress tarEntries c2)
    ∧ (decompress (container.drop 24) = none →
      run_pipeline decompress tarEntries xmlOf jp container
        = Except.error PErr.corruptContainer)
    ∧ (decompress (container.drop 24) = some [] → tarEntries [] = none →
      run_pipeline decompress tarEntries xmlOf jp container
        = Except.error PErr.corruptContainer) := by
  refine ⟨?_, ?_, ?_⟩
  · intro h
    unfold extract_tokens_file
    rw [h]
  · intro h
    simp [run_pipeline, extract_tokens_file, h]
  · intro h1 h2
    simp [run_pipeline, extract_tokens_file, h1, h2]

/-- Witness for C9: a failing decompression oracle, and a decompression
yielding zero bytes with a tar reader that rejects the empty stream, both
abort the pipeline with `corruptContainer`. -/
theorem corrupt_container_witness :
    run_pipeline (fun _ => none) (fun _ => none) (fun _ => []) (fun _ => none) [0]
        = Except.error PErr.corruptContainer
    ∧ run_pipeline (fun _ => some []) (fun _ => none) (fun _ => []) (fun _ => none) [0]
        = Except.error PErr.corruptContainer :=
  ⟨(corrupt_container (fun _ => none) (fun _ => none) (fun _ => []) (fun _ => none)
      [0] [0]).2.1 rfl,
    (corrupt_container (fun _ => some []) (fun _ => none) (fun _ => []) (fun _ => none)
      [0] [0]).2.2 rfl rfl⟩

/-! ### Empty credential document -/

theorem parse_strings_ne_nameError (jp : String → Option Token)
    (es : List (String × String)) :
    parse_strings jp es ≠ Except.error PErr.nameError := by
  rcases parse_strings_result jp es with ⟨ts, hts⟩ | herr
  · rw [hts]
    intro h
    cases h
  · rw [herr]
    intro h
    cases h

/-- C10: decoding raises the never-bound-variable error exactly on a
document with zero `<string>` entries — the post-loop
`token_order.append(name)` references `name`, which the loop never bound —
so decode completes normally only when at least one entry is present. -/
theorem empty_document_error (jp : String → Option Token)
    (entries : List (String × String)) :
    parse_tokens_from_xml jp entries = Except.error PErr.nameError ↔ entries = [] := by
  constructor
  · intro h
    cases entries with
    | nil => rfl
    | cons e rest =>
        exact absurd h (parse_strings_ne_nameError jp (e :: rest))
  · rintro rfl
    rfl
